import Mathlib

/-!
Shallow embedding of the ecsjs credential-resolution core.

This file models the credential-identifier-to-ENS-name construction and
resolution pipeline of the ecsjs library:

* `src/utils.ts` — `normalizeAddress`, `normalizeName`, `validateCoinType`,
  `validateCredentialKey`, `constructENSName`, `validateCredentialRequest`;
* the `ECSResolver` class (`resolver.ts`) — `resolveCredential`,
  `resolveCredentialsBatch`, and the private `_resolveCredentialInternal`
  value decoder.

JavaScript strings are modelled as Lean `String`s (lists of characters); all
inputs of interest are ASCII, where JS UTF-16 code units and Lean code points
coincide.  Throwing functions are modelled with `Except ECSError`.  The
asynchronous upstream text-record read (`publicClient.getEnsText`) is
modelled by an explicit outcome parameter: the promise either fulfills with
a record, rejects with an error message, or fails to settle before the
timeout race is lost.
-/

/-- The `ECSError` subclasses of `types.ts`, tagged by subclass and carrying
the `message` string. -/
inductive ECSError where
  | invalidIdentifier (msg : String)
  | invalidCredentialKey (msg : String)
  | resolutionTimeout (msg : String)
  | ensResolutionError (msg : String)
deriving Repr, DecidableEq

/-- The `message` property of the thrown error. -/
def ECSError.message : ECSError → String
  | .invalidIdentifier m => m
  | .invalidCredentialKey m => m
  | .resolutionTimeout m => m
  | .ensResolutionError m => m

/-! JavaScript string primitives used by the source. -/

/-- The character class of the regex `/[0-9a-fA-F]/` used by
`normalizeAddress`. -/
def isHexDigitJs (c : Char) : Bool :=
  (48 ≤ c.toNat && c.toNat ≤ 57) || (97 ≤ c.toNat && c.toNat ≤ 102) ||
    (65 ≤ c.toNat && c.toNat ≤ 70)

/-- The character class of the regex `/[a-z0-9.-]/` used by
`normalizeName`. -/
def isNameCharJs (c : Char) : Bool :=
  (97 ≤ c.toNat && c.toNat ≤ 122) || (48 ≤ c.toNat && c.toNat ≤ 57) ||
    c = '.' || c = '-'

/-- The character class of the regex `/[\x00-\x1F\x7F]/` that the value
decoder strips (ASCII control characters and DEL). -/
def isStrippedControl (c : Char) : Bool :=
  c.toNat ≤ 0x1F || c.toNat = 0x7F

/-- The ECMAScript WhiteSpace / LineTerminator set trimmed by
`String.prototype.trim`. -/
def isJsWhitespace (c : Char) : Bool :=
  (0x09 ≤ c.toNat && c.toNat ≤ 0x0D) || c.toNat = 0x20 || c.toNat = 0xA0 ||
    c.toNat = 0x1680 || (0x2000 ≤ c.toNat && c.toNat ≤ 0x200A) ||
    c.toNat = 0x2028 || c.toNat = 0x2029 || c.toNat = 0x202F ||
    c.toNat = 0x205F || c.toNat = 0x3000 || c.toNat = 0xFEFF

/-- `String.prototype.trim` on a character list. -/
def jsTrimList (l : List Char) : List Char :=
  ((l.dropWhile isJsWhitespace).reverse.dropWhile isJsWhitespace).reverse

/-- `String.prototype.trim`. -/
def jsTrim (s : String) : String :=
  ⟨jsTrimList s.data⟩

/-- `String.prototype.toLowerCase` on one character.  The source only ever
lowercases ASCII data (hex addresses and `[a-z0-9.-]`-constrained names), so
the Unicode simple case mappings outside `A`–`Z` are not modelled. -/
def jsToLowerChar (c : Char) : Char :=
  if 65 ≤ c.toNat && c.toNat ≤ 90 then Char.ofNat (c.toNat + 32) else c

/-- `String.prototype.toLowerCase`. -/
def jsToLower (s : String) : String :=
  ⟨s.data.map jsToLowerChar⟩

/-- `String.prototype.startsWith('0x')`. -/
def startsWith0x (l : List Char) : Bool :=
  match l with
  | a :: b :: _ => a = '0' && b = 'x'
  | _ => false

/-- Boolean list-prefix test (helper for `String.prototype.includes`). -/
def isPrefixOfChars : List Char → List Char → Bool
  | [], _ => true
  | _ :: _, [] => false
  | a :: as, b :: bs => a = b && isPrefixOfChars as bs

/-- Does `pat` occur as a contiguous substring of the list? -/
def hasSubstring (pat : List Char) : List Char → Bool
  | [] => isPrefixOfChars pat []
  | c :: rest => isPrefixOfChars pat (c :: rest) || hasSubstring pat rest

/-- `String.prototype.includes`. -/
def strIncludes (s pat : String) : Bool :=
  hasSubstring pat.data s.data

/-- `String.prototype.split('.')` on a character list: the accumulator holds
the current (reversed) segment. -/
def splitDotAux : List Char → List Char → List (List Char)
  | [], acc => [acc.reverse]
  | c :: rest, acc =>
      if c = '.' then acc.reverse :: splitDotAux rest []
      else splitDotAux rest (c :: acc)

/-- `String.prototype.split('.')`. -/
def splitDot (s : String) : List (List Char) :=
  splitDotAux s.data []

/-! The functions of `utils.ts`. -/

/-- `DEFAULT_COIN_TYPE` — Ethereum, 60 decimal = 3c hex. -/
def DEFAULT_COIN_TYPE : String := "3c"

/-- `DEFAULT_ECS_DOMAIN`. -/
def DEFAULT_ECS_DOMAIN : String := "ecs.eth"

/-- `normalizeAddress(address)`: strip an optional (lowercase) `0x` prefix,
require exactly 40 hex characters (`/^[0-9a-fA-F]{40}$/`), return the
lowercase form. -/
def normalizeAddress (address : String) : Except ECSError String :=
  let cleanAddress : List Char :=
    if startsWith0x address.data then address.data.drop 2 else address.data
  if cleanAddress.length = 40 && cleanAddress.all isHexDigitJs then
    .ok ⟨cleanAddress.map jsToLowerChar⟩
  else
    .error (.invalidIdentifier ("Invalid Ethereum address format: " ++ address))

/-- The fixed allow-list of `validateCoinType`. -/
def validCoinTypes : List String := ["3c", "0", "2", "91"]

/-- `validateCoinType(coinType)`. -/
def validateCoinType (coinType : String) : Except ECSError Unit :=
  if validCoinTypes.contains coinType then .ok ()
  else
    .error (.invalidIdentifier
      ("Invalid coin type: " ++ coinType ++ ". Supported types: 3c, 0, 2, 91"))

/-- `normalizeName(name)`: reject the empty string, trim and lowercase,
reject if empty or outside `/^[a-z0-9.-]+$/`. -/
def normalizeName (name : String) : Except ECSError String :=
  if name = "" then
    .error (.invalidIdentifier "Name must be a non-empty string")
  else
    let trimmedName := jsToLower (jsTrim name)
    if trimmedName.data.length = 0 then
      .error (.invalidIdentifier "Name cannot be empty")
    else if !trimmedName.data.all isNameCharJs then
      .error (.invalidIdentifier
        ("Invalid name format: " ++ name ++
          ". Names can only contain letters, numbers, dots, and hyphens"))
    else
      .ok trimmedName

/-- The `CredentialIdentifier` tagged union of `types.ts`.  The `coinType`
field of the address variant is optional. -/
inductive CredentialIdentifier where
  | name (name : String)
  | address (address : String) (coinType : Option String)
deriving Repr, DecidableEq

/-- `constructENSName(identifier, ecsDomain)`.  The `identifier.coinType ||
DEFAULT_COIN_TYPE` default treats the absent and the empty (falsy) coin type
alike. -/
def constructENSName (identifier : CredentialIdentifier)
    (ecsDomain : String := DEFAULT_ECS_DOMAIN) : Except ECSError String :=
  match identifier with
  | .name n => do
      let normalizedName ← normalizeName n
      return normalizedName ++ ".name." ++ ecsDomain
  | .address a ct => do
      let normalizedAddress ← normalizeAddress a
      let coinType := match ct with
        | some c => if c = "" then DEFAULT_COIN_TYPE else c
        | none => DEFAULT_COIN_TYPE
      let _ ← validateCoinType coinType
      return normalizedAddress ++ "." ++ coinType ++ ".addr." ++ ecsDomain

/-- `validateCredentialKey(credentialKey)`: non-empty, at least four
dot-separated segments, first two segments `eth` and `ecs`. -/
def validateCredentialKey (credentialKey : String) : Except ECSError Unit :=
  if credentialKey = "" then
    .error (.invalidCredentialKey "Credential key must be a non-empty string")
  else
    let trimmedKey := jsTrim credentialKey
    if trimmedKey.data.length = 0 then
      .error (.invalidCredentialKey "Credential key cannot be empty")
    else
      let parts := splitDot trimmedKey
      if parts.length < 4 then
        .error (.invalidCredentialKey
          ("Invalid credential key format: " ++ credentialKey ++
            ". Expected format: eth.ecs.namespace.credential"))
      else if !(parts.head? = some "eth".data && parts.get? 1 = some "ecs".data) then
        .error (.invalidCredentialKey
          ("Invalid credential key format: " ++ credentialKey ++
            ". Must start with \x27eth.ecs\x27"))
      else
        .ok ()

/-- `validateCredentialRequest(identifier, credentialKey)`: key validation,
then identifier-appropriate normalization; the coin type is only validated
when present and truthy (non-empty). -/
def validateCredentialRequest (identifier : CredentialIdentifier)
    (credentialKey : String) : Except ECSError Unit := do
  let _ ← validateCredentialKey credentialKey
  match identifier with
  | .name n =>
      let _ ← normalizeName n
      return ()
  | .address a ct =>
      let _ ← normalizeAddress a
      match ct with
      | some c => if c = "" then return () else validateCoinType c
      | none => return ()

deriving instance DecidableEq for Except

/-! Byte-level primitives of the value decoder.

`_resolveCredentialInternal` decodes `0x`-prefixed record values with
`Buffer.from(hex, 'hex').toString('utf8')`.  Node's `Buffer.from` with the
`hex` encoding never throws: it parses two-character pairs left to right and
silently truncates at the first invalid or incomplete pair.  `toString('utf8')`
replaces invalid UTF-8 sequences with U+FFFD per the WHATWG decoder. -/

/-- Value of one hex digit as parsed by Node's hex decoder. -/
def hexDigitVal (c : Char) : Option Nat :=
  if 48 ≤ c.toNat && c.toNat ≤ 57 then some (c.toNat - 48)
  else if 97 ≤ c.toNat && c.toNat ≤ 102 then some (c.toNat - 87)
  else if 65 ≤ c.toNat && c.toNat ≤ 70 then some (c.toNat - 55)
  else none

/-- `Buffer.from(s, 'hex')`: hex pairs to bytes, truncating at the first
invalid or incomplete pair (it does not throw). -/
def hexPairsDecode : List Char → List Nat
  | c1 :: c2 :: rest =>
      match hexDigitVal c1, hexDigitVal c2 with
      | some hi, some lo => (16 * hi + lo) :: hexPairsDecode rest
      | _, _ => []
  | _ => []

/-- The U+FFFD replacement character emitted for invalid UTF-8. -/
def utf8ReplacementChar : Char := Char.ofNat 0xFFFD

/-- Is the byte a UTF-8 continuation byte `10xxxxxx`? -/
def isUtf8Cont (b : Nat) : Bool := 0x80 ≤ b && b ≤ 0xBF

/-- Admissible first continuation byte after a three-byte leader (WHATWG
bounds excluding overlong forms and surrogates). -/
def utf8Cont3Ok (lead b2 : Nat) : Bool :=
  if lead = 0xE0 then 0xA0 ≤ b2 && b2 ≤ 0xBF
  else if lead = 0xED then 0x80 ≤ b2 && b2 ≤ 0x9F
  else isUtf8Cont b2

/-- Admissible first continuation byte after a four-byte leader. -/
def utf8Cont4Ok (lead b2 : Nat) : Bool :=
  if lead = 0xF0 then 0x90 ≤ b2 && b2 ≤ 0xBF
  else if lead = 0xF4 then 0x80 ≤ b2 && b2 ≤ 0x8F
  else isUtf8Cont b2

/-- `buffer.toString('utf8')`: WHATWG UTF-8 decoding with U+FFFD replacement
(one replacement per maximal invalid subpart; resume at the offending
byte). -/
def utf8DecodeReplace : List Nat → List Char
  | [] => []
  | b :: rest =>
    if b ≤ 0x7F then Char.ofNat b :: utf8DecodeReplace rest
    else if 0xC2 ≤ b && b ≤ 0xDF then
      match rest with
      | [] => [utf8ReplacementChar]
      | b2 :: rest2 =>
        if isUtf8Cont b2 then
          Char.ofNat ((b - 0xC0) * 64 + (b2 - 0x80)) :: utf8DecodeReplace rest2
        else utf8ReplacementChar :: utf8DecodeReplace (b2 :: rest2)
    else if 0xE0 ≤ b && b ≤ 0xEF then
      match rest with
      | [] => [utf8ReplacementChar]
      | b2 :: rest2 =>
        if utf8Cont3Ok b b2 then
          match rest2 with
          | [] => [utf8ReplacementChar]
          | b3 :: rest3 =>
            if isUtf8Cont b3 then
              Char.ofNat ((b - 0xE0) * 4096 + (b2 - 0x80) * 64 + (b3 - 0x80)) ::
                utf8DecodeReplace rest3
            else utf8ReplacementChar :: utf8DecodeReplace (b3 :: rest3)
        else utf8ReplacementChar :: utf8DecodeReplace (b2 :: rest2)
    else if 0xF0 ≤ b && b ≤ 0xF4 then
      match rest with
      | [] => [utf8ReplacementChar]
      | b2 :: rest2 =>
        if utf8Cont4Ok b b2 then
          match rest2 with
          | [] => [utf8ReplacementChar]
          | b3 :: rest3 =>
            if isUtf8Cont b3 then
              match rest3 with
              | [] => [utf8ReplacementChar]
              | b4 :: rest4 =>
                if isUtf8Cont b4 then
                  Char.ofNat ((b - 0xF0) * 262144 + (b2 - 0x80) * 4096 +
                      (b3 - 0x80) * 64 + (b4 - 0x80)) :: utf8DecodeReplace rest4
                else utf8ReplacementChar :: utf8DecodeReplace (b4 :: rest4)
            else utf8ReplacementChar :: utf8DecodeReplace (b3 :: rest3)
        else utf8ReplacementChar :: utf8DecodeReplace (b2 :: rest2)
    else utf8ReplacementChar :: utf8DecodeReplace rest

/-- UTF-8 encoding of one scalar value (used to state the round-trip
property of the spec). -/
def utf8EncodeChar (c : Char) : List Nat :=
  let n := c.toNat
  if n ≤ 0x7F then [n]
  else if n ≤ 0x7FF then [0xC0 + n / 64, 0x80 + n % 64]
  else if n ≤ 0xFFFF then
    [0xE0 + n / 4096, 0x80 + (n / 64) % 64, 0x80 + n % 64]
  else
    [0xF0 + n / 262144, 0x80 + (n / 4096) % 64, 0x80 + (n / 64) % 64,
      0x80 + n % 64]

/-- UTF-8 encoding of a character list. -/
def utf8Encode : List Char → List Nat
  | [] => []
  | c :: cs => utf8EncodeChar c ++ utf8Encode cs

/-- One lowercase hex digit (`0`–`9`, `a`–`f`). -/
def hexDigitChar (d : Nat) : Char :=
  if d < 10 then Char.ofNat (48 + d) else Char.ofNat (87 + d)

/-- Lowercase hex encoding of a byte list (used to state the round-trip
property of the spec). -/
def hexEncodeBytes : List Nat → List Char
  | [] => []
  | b :: bs => hexDigitChar (b / 16) :: hexDigitChar (b % 16) :: hexEncodeBytes bs

/-! The resolver class (`ECSResolver`). -/

/-- A raw text-record value handed back by `publicClient.getEnsText`: either
a JS string or a byte buffer/array (the defensive `typeof textRecord ===
'object'` branch of the source).  `Buffer.from` keeps the low byte of each
array element. -/
inductive RawRecord where
  | str (s : String)
  | bytes (bs : List Nat)
deriving Repr, DecidableEq

/-- Is the record falsy (`if (!textRecord) return null`)?  The empty string
is falsy; an object is always truthy. -/
def recordIsFalsy : RawRecord → Bool
  | .str s => s = ""
  | .bytes _ => false

/-- The string coercion of lines 201–219 of the resolver: a string is used
as-is, a byte buffer is decoded as UTF-8. -/
def coerceRecord : RawRecord → String
  | .str s => s
  | .bytes bs => ⟨utf8DecodeReplace (bs.map (· % 256))⟩

/-- The value-decoding pipeline of `_resolveCredentialInternal` applied to a
fulfilled `getEnsText` result (`none` models `null`): falsy check, control
character stripping and trimming, empty check, then the `0x` hex-decode
branch with `decoded || null`. -/
def decodeTextRecord (textRecord : Option RawRecord) : Option String :=
  match textRecord with
  | none => none
  | some r =>
    if recordIsFalsy r then none
    else
      let cleanValue : List Char :=
        jsTrimList ((coerceRecord r).data.filter (fun c => !isStrippedControl c))
      if cleanValue = [] then none
      else if startsWith0x cleanValue then
        let decoded : List Char :=
          jsTrimList (utf8DecodeReplace (hexPairsDecode (cleanValue.drop 2)))
        if decoded = [] then none else some ⟨decoded⟩
      else some ⟨cleanValue⟩

/-- Substring match of lines 243–245: is the upstream failure one of the
known "not found" phrasings? -/
def isNotFoundMessage (msg : String) : Bool :=
  strIncludes msg "resolver not found" || strIncludes msg "name not found" ||
    strIncludes msg "record not found"

/-- The settled outcome of the `getEnsText` promise, abstracting the network
and the `Promise.race` clock: the read fulfills with a record, rejects with
an `Error` carrying `msg`, or fails to settle before the timeout fires. -/
inductive UpstreamOutcome where
  | settles (record : Option RawRecord)
  | rejects (msg : String)
  | hangs
deriving Repr, DecidableEq

/-- `_resolveCredentialInternal` given the settled upstream result: decode a
fulfilled value; downgrade "not found" rejections to `null`; wrap any other
rejection as `ENSResolutionError`. -/
def resolveCredentialInternal (upstream : Except String (Option RawRecord)) :
    Except ECSError (Option String) :=
  match upstream with
  | .ok record => .ok (decodeTextRecord record)
  | .error msg =>
      if isNotFoundMessage msg then .ok none
      else .error (.ensResolutionError ("Failed to resolve ENS text record: " ++ msg))

/-- The `ResolutionTimeoutError` message raised when the timeout promise wins
the race. -/
def timeoutMessage (timeout : Nat) : String :=
  "Credential resolution timed out after " ++ Nat.repr timeout ++ "ms"

/-- `Promise.race([resolutionPromise, timeoutPromise])`: if the upstream read
does not settle in time the timer rejects, otherwise the internal resolution
result wins. -/
def awaitRace (timeout : Nat) (outcome : UpstreamOutcome) :
    Except ECSError (Option String) :=
  match outcome with
  | .hangs => .error (.resolutionTimeout (timeoutMessage timeout))
  | .settles record => resolveCredentialInternal (.ok record)
  | .rejects msg => resolveCredentialInternal (.error msg)

/-- The `CredentialResolutionResult` of `types.ts`. -/
structure CredentialResolutionResult where
  value : Option String
  ensName : String
  credentialKey : String
  success : Bool
  error : Option String := none
deriving Repr, DecidableEq

/-- The `ResolveCredentialOptions` of `types.ts` with their defaults. -/
structure ResolveCredentialOptions where
  timeout : Nat := 10000
  throwOnError : Bool := false
deriving Repr, DecidableEq

/-- The `try` block of `resolveCredential`: validate, construct the name,
race the internal resolution against the timer, and wrap the value. -/
def resolveCredentialTry (ecsDomain : String) (identifier : CredentialIdentifier)
    (credentialKey : String) (timeout : Nat) (outcome : UpstreamOutcome) :
    Except ECSError CredentialResolutionResult := do
  let _ ← validateCredentialRequest identifier credentialKey
  let ensName ← constructENSName identifier ecsDomain
  let value ← awaitRace timeout outcome
  return { value := value, ensName := ensName, credentialKey := credentialKey,
           success := value.isSome, error := none }

/-- `resolveCredential`.  The `catch` block rebuilds the result with
`ensName: constructENSName(identifier, this.ecsDomain)`; when the identifier
itself is invalid that call throws again from inside the `catch`, and that
second error escapes regardless of `throwOnError`. -/
def resolveCredential (ecsDomain : String) (identifier : CredentialIdentifier)
    (credentialKey : String) (options : ResolveCredentialOptions)
    (outcome : UpstreamOutcome) : Except ECSError CredentialResolutionResult :=
  match resolveCredentialTry ecsDomain identifier credentialKey options.timeout outcome with
  | .ok result => .ok result
  | .error e =>
      match constructENSName identifier ecsDomain with
      | .error e2 => .error e2
      | .ok ensName =>
          let result : CredentialResolutionResult :=
            { value := none, ensName := ensName, credentialKey := credentialKey,
              success := false, error := some e.message }
          if options.throwOnError then .error e else .ok result

/-- The `BatchCredentialRequest` of `types.ts`. -/
structure BatchCredentialRequest where
  identifier : CredentialIdentifier
  credentialKey : String
deriving Repr, DecidableEq

/-- The `BatchCredentialResult` of `types.ts`: the spread `{ ...result,
request }`. -/
structure BatchCredentialResult where
  result : CredentialResolutionResult
  request : BatchCredentialRequest
deriving Repr, DecidableEq

/-- The `requests.map(...)` / `Promise.all` collection of
`resolveCredentialsBatch`, processing the request at index `i` with upstream
outcome `outcomes i`: every fulfilled per-request result is kept in input
order with its request attached, and any per-request rejection rejects the
whole batch (`Promise.all` rejects with the first rejection; the model picks
the first in index order, which is observationally the same set of
behaviours for these effect-free per-request values). -/
def resolveBatchGo (ecsDomain : String) (options : ResolveCredentialOptions)
    (outcomes : Nat → UpstreamOutcome) :
    List BatchCredentialRequest → Nat → Except ECSError (List BatchCredentialResult)
  | [], _ => .ok []
  | req :: rest, i =>
      match resolveCredential ecsDomain req.identifier req.credentialKey options
          (outcomes i) with
      | .error e => .error e
      | .ok r =>
          match resolveBatchGo ecsDomain options outcomes rest (i + 1) with
          | .error e => .error e
          | .ok rs => .ok ({ result := r, request := req } :: rs)

/-- `resolveCredentialsBatch`: map every request through `resolveCredential`
and collect with `Promise.all`; `outcomes i` is the upstream outcome of the
`i`-th request. -/
def resolveCredentialsBatch (ecsDomain : String)
    (requests : List BatchCredentialRequest) (options : ResolveCredentialOptions)
    (outcomes : Nat → UpstreamOutcome) :
    Except ECSError (List BatchCredentialResult) :=
  resolveBatchGo ecsDomain options outcomes requests 0

/-! Helper lemmas. -/

theorem charToNat_ofNat {n : Nat} (h : n < 0xd800) : (Char.ofNat n).toNat = n := by
  have hv : n.isValidChar := Or.inl h
  rw [Char.ofNat, dif_pos hv]
  rfl

theorem isPrefixOfChars_append (p t : List Char) :
    isPrefixOfChars p (p ++ t) = true := by
  induction p with
  | nil => rfl
  | cons a as ih => simp [isPrefixOfChars, ih]

theorem hasSubstring_of_startsWith {pat l : List Char}
    (h : isPrefixOfChars pat l = true) : hasSubstring pat l = true := by
  cases l with
  | nil => simpa [hasSubstring] using h
  | cons c rest => simp [hasSubstring, h]

theorem hasSubstring_append_left {pat : List Char} (x : List Char) {y : List Char}
    (h : hasSubstring pat y = true) : hasSubstring pat (x ++ y) = true := by
  induction x with
  | nil => simpa using h
  | cons c rest ih => simp [hasSubstring, ih]

theorem dropWhile_eq_self_of_head (p : Char → Bool) (l : List Char)
    (h : ∀ c, l.head? = some c → p c = false) : l.dropWhile p = l := by
  cases l with
  | nil => rfl
  | cons a t =>
      rw [List.dropWhile_cons, if_neg]
      simp [h a rfl]

theorem jsTrimList_eq_self {l : List Char}
    (hh : ∀ c, l.head? = some c → isJsWhitespace c = false)
    (hl : ∀ c, l.getLast? = some c → isJsWhitespace c = false) :
    jsTrimList l = l := by
  unfold jsTrimList
  rw [dropWhile_eq_self_of_head _ _ hh]
  rw [dropWhile_eq_self_of_head _ _ (fun c hc => hl c (by rwa [List.head?_reverse] at hc))]
  exact l.reverse_reverse

theorem not_jsWhitespace_of_printable {c : Char} (h1 : 32 ≤ c.toNat)
    (h2 : c.toNat ≤ 126) (h3 : c.toNat ≠ 32) : isJsWhitespace c = false := by
  simp only [isJsWhitespace, Bool.or_eq_false_iff, Bool.and_eq_false_iff,
    decide_eq_false_iff_not]
  omega

theorem not_strippedControl_of_printable {c : Char} (h1 : 32 ≤ c.toNat)
    (h2 : c.toNat ≤ 126) : isStrippedControl c = false := by
  simp only [isStrippedControl, Bool.or_eq_false_iff, decide_eq_false_iff_not]
  omega

theorem hexDigitChar_toNat {d : Nat} (h : d < 16) :
    (48 ≤ (hexDigitChar d).toNat ∧ (hexDigitChar d).toNat ≤ 57) ∨
      (97 ≤ (hexDigitChar d).toNat ∧ (hexDigitChar d).toNat ≤ 102) := by
  unfold hexDigitChar
  by_cases hd : d < 10
  · rw [if_pos hd, charToNat_ofNat (by omega)]
    omega
  · rw [if_neg hd, charToNat_ofNat (by omega)]
    omega

theorem hexDigitVal_hexDigitChar {d : Nat} (h : d < 16) :
    hexDigitVal (hexDigitChar d) = some d := by
  unfold hexDigitVal hexDigitChar
  by_cases hd : d < 10
  · rw [if_pos hd, charToNat_ofNat (by omega)]
    rw [if_pos (by simp; omega)]
    exact congrArg some (by omega)
  · rw [if_neg hd, charToNat_ofNat (by omega)]
    rw [if_neg (by simp; omega), if_pos (by simp; omega)]
    exact congrArg some (by omega)

theorem hexPairsDecode_hexEncodeBytes {bs : List Nat} (h : ∀ b ∈ bs, b < 256) :
    hexPairsDecode (hexEncodeBytes bs) = bs := by
  induction bs with
  | nil => rfl
  | cons b t ih =>
      have hb : b < 256 := h b (List.mem_cons_self b t)
      rw [hexEncodeBytes, hexPairsDecode,
        hexDigitVal_hexDigitChar (by omega : b / 16 < 16),
        hexDigitVal_hexDigitChar (by omega : b % 16 < 16)]
      rw [ih (fun x hx => h x (List.mem_cons_of_mem b hx))]
      show (16 * (b / 16) + b % 16) :: t = b :: t
      congr 1
      omega

theorem hexEncodeBytes_chars {bs : List Nat} (h : ∀ b ∈ bs, b < 256) :
    ∀ c ∈ hexEncodeBytes bs, 48 ≤ c.toNat ∧ c.toNat ≤ 102 := by
  induction bs with
  | nil => intro c hc; cases hc
  | cons b t ih =>
      intro c hc
      have hb : b < 256 := h b (List.mem_cons_self b t)
      rw [hexEncodeBytes] at hc
      simp only [List.mem_cons] at hc
      rcases hc with hc | hc | hc
      · have hd := hexDigitChar_toNat (by omega : b / 16 < 16)
        rcases hd with ⟨h1, h2⟩ | ⟨h1, h2⟩ <;> (subst hc; constructor <;> omega)
      · have hd := hexDigitChar_toNat (by omega : b % 16 < 16)
        rcases hd with ⟨h1, h2⟩ | ⟨h1, h2⟩ <;> (subst hc; constructor <;> omega)
      · exact ih (fun x hx => h x (List.mem_cons_of_mem b hx)) c hc

theorem hexEncodeBytes_ne_nil {b : Nat} {bs : List Nat} :
    hexEncodeBytes (b :: bs) ≠ [] := by
  rw [hexEncodeBytes]
  exact List.cons_ne_nil _ _

theorem utf8EncodeChar_ascii {c : Char} (h : c.toNat ≤ 0x7F) :
    utf8EncodeChar c = [c.toNat] := by
  unfold utf8EncodeChar
  rw [if_pos (by omega)]

theorem utf8Encode_ascii {l : List Char} (h : ∀ c ∈ l, c.toNat ≤ 0x7F) :
    utf8Encode l = l.map Char.toNat := by
  induction l with
  | nil => rfl
  | cons c t ih =>
      rw [utf8Encode, utf8EncodeChar_ascii (h c (List.mem_cons_self c t)),
        ih (fun x hx => h x (List.mem_cons_of_mem c hx))]
      rfl

theorem utf8DecodeReplace_cons_ascii {b : Nat} (t : List Nat) (hb : b ≤ 0x7F) :
    utf8DecodeReplace (b :: t) = Char.ofNat b :: utf8DecodeReplace t := by
  rw [utf8DecodeReplace.eq_def]
  simp only [if_pos hb]

theorem utf8DecodeReplace_ascii {bs : List Nat} (h : ∀ b ∈ bs, b ≤ 0x7F) :
    utf8DecodeReplace bs = bs.map Char.ofNat := by
  induction bs with
  | nil => rfl
  | cons b t ih =>
      rw [utf8DecodeReplace_cons_ascii t (h b (List.mem_cons_self b t)),
        ih (fun x hx => h x (List.mem_cons_of_mem b hx))]
      rfl

theorem utf8_roundtrip_ascii {l : List Char} (h : ∀ c ∈ l, c.toNat ≤ 0x7F) :
    utf8DecodeReplace (l.map Char.toNat) = l := by
  rw [utf8DecodeReplace_ascii (by simpa using h), List.map_map]
  have : (Char.ofNat ∘ Char.toNat) = id := funext fun c => Char.ofNat_toNat c
  rw [this, List.map_id]

/-- Lowercase hex digits `[0-9a-f]` (used to state what `normalizeAddress`
guarantees about its output). -/
def isLowerHexChar (c : Char) : Bool :=
  (48 ≤ c.toNat && c.toNat ≤ 57) || (97 ≤ c.toNat && c.toNat ≤ 102)

theorem jsToLowerChar_hex {c : Char} (h : isHexDigitJs c = true) :
    isLowerHexChar (jsToLowerChar c) = true := by
  simp only [isHexDigitJs, Bool.or_eq_true, Bool.and_eq_true, decide_eq_true_eq] at h
  unfold jsToLowerChar isLowerHexChar
  by_cases hu : 65 ≤ c.toNat ∧ c.toNat ≤ 90
  · rw [if_pos (by simp only [Bool.and_eq_true, decide_eq_true_eq]; exact hu)]
    rw [Bool.or_eq_true]
    simp only [Bool.and_eq_true, decide_eq_true_eq]
    rw [charToNat_ofNat (by omega)]
    omega
  · rw [if_neg (by simp only [Bool.and_eq_true, decide_eq_true_eq]; exact hu)]
    rw [Bool.or_eq_true]
    simp only [Bool.and_eq_true, decide_eq_true_eq]
    omega

theorem startsWith0x_cons_cons {a b : Char} {t : List Char} :
    startsWith0x (a :: b :: t) = (a = '0' && b = 'x') := rfl

theorem startsWith0x_of_all_hex {l : List Char} (h : l.all isHexDigitJs = true) :
    startsWith0x l = false := by
  match l with
  | [] => rfl
  | [a] => rfl
  | a :: b :: t =>
      rw [startsWith0x_cons_cons]
      have hb : isHexDigitJs b = true := by
        have := List.all_eq_true.mp h b (by simp)
        exact this
      have hbx : b ≠ 'x' := by
        intro hbeq
        rw [hbeq] at hb
        exact absurd hb (by decide)
      simp [hbx]

theorem startsWith0x_eq_true {l : List Char} (h : startsWith0x l = true) :
    ∃ t, l = '0' :: 'x' :: t := by
  match l with
  | [] => exact Bool.noConfusion h
  | [a] => exact Bool.noConfusion h
  | a :: b :: t =>
      rw [startsWith0x_cons_cons, Bool.and_eq_true, decide_eq_true_eq,
        decide_eq_true_eq] at h
      exact ⟨t, by rw [h.1, h.2]⟩

/-- The inputs on which the amended C4 asserts success: exactly 40
hexadecimal characters, optionally preceded by the exact lowercase prefix
`0x` (an uppercase `0X` prefix is not stripped by the source and falls in
the rejected class). -/
def validAddressShape (s : String) : Prop :=
  ∃ l : List Char, (s.data = l ∨ s.data = '0' :: 'x' :: l) ∧
    l.length = 40 ∧ l.all isHexDigitJs = true

theorem constructENSName_ok_of_validate {identifier : CredentialIdentifier}
    {key : String} (dom : String)
    (h : validateCredentialRequest identifier key = .ok ()) :
    ∃ n, constructENSName identifier dom = .ok n := by
  unfold validateCredentialRequest at h
  cases hk : validateCredentialKey key with
  | error e => rw [hk] at h; simp [Bind.bind, Except.bind] at h
  | ok u =>
      rw [hk] at h
      simp only [Bind.bind, Except.bind] at h
      cases identifier with
      | name n =>
          dsimp only at h
          cases hn : normalizeName n with
          | error e => rw [hn] at h; simp [Except.bind] at h
          | ok nn =>
              refine ⟨nn ++ ".name." ++ dom, ?_⟩
              simp [constructENSName, hn, Bind.bind, Except.bind, Pure.pure, Except.pure]
      | address a ct =>
          dsimp only at h
          cases ha : normalizeAddress a with
          | error e => rw [ha] at h; simp [Except.bind] at h
          | ok na =>
              rw [ha] at h
              dsimp only at h
              cases ct with
              | none =>
                  refine ⟨na ++ "." ++ DEFAULT_COIN_TYPE ++ ".addr." ++ dom, ?_⟩
                  simp [constructENSName, ha, Bind.bind, Except.bind, validateCoinType,
                    validCoinTypes, DEFAULT_COIN_TYPE, Pure.pure, Except.pure]
              | some c =>
                  by_cases hc : c = ""
                  · subst hc
                    refine ⟨na ++ "." ++ DEFAULT_COIN_TYPE ++ ".addr." ++ dom, ?_⟩
                    simp [constructENSName, ha, Bind.bind, Except.bind, validateCoinType,
                      validCoinTypes, DEFAULT_COIN_TYPE, Pure.pure, Except.pure]
                  · dsimp only at h
                    rw [if_neg hc] at h
                    refine ⟨na ++ "." ++ c ++ ".addr." ++ dom, ?_⟩
                    simp [constructENSName, ha, Bind.bind, Except.bind, hc, h,
                      Pure.pure, Except.pure]

theorem decodeTextRecord_ne_some_empty (record : Option RawRecord) :
    decodeTextRecord record ≠ some "" := by
  intro h
  unfold decodeTextRecord at h
  cases record with
  | none => exact Option.noConfusion h
  | some r =>
      dsimp only at h
      by_cases hf : recordIsFalsy r = true
      · rw [if_pos hf] at h; exact Option.noConfusion h
      · rw [if_neg hf] at h
        set cl := jsTrimList ((coerceRecord r).data.filter (fun c => !isStrippedControl c)) with hcl
        by_cases hc : cl = []
        · rw [if_pos hc] at h; exact Option.noConfusion h
        · rw [if_neg hc] at h
          by_cases hs : startsWith0x cl = true
          · rw [if_pos hs] at h
            set dec := jsTrimList (utf8DecodeReplace (hexPairsDecode (cl.drop 2))) with hdec
            by_cases hd : dec = []
            · rw [if_pos hd] at h; exact Option.noConfusion h
            · rw [if_neg hd] at h
              have := Option.some.inj h
              exact hd (congrArg String.data this)
          · rw [if_neg hs] at h
            have := Option.some.inj h
            exact hc (congrArg String.data this)

theorem resolveCredential_no_throw {dom : String} {identifier : CredentialIdentifier}
    {key : String} {opts : ResolveCredentialOptions} {outcome : UpstreamOutcome}
    (hval : validateCredentialRequest identifier key = .ok ())
    (hthrow : opts.throwOnError = false) :
    ∃ r, resolveCredential dom identifier key opts outcome = .ok r := by
  obtain ⟨n, hn⟩ := constructENSName_ok_of_validate dom hval
  unfold resolveCredential
  cases htry : resolveCredentialTry dom identifier key opts.timeout outcome with
  | ok r => exact ⟨r, rfl⟩
  | error e =>
      rw [hn]
      rw [hthrow]
      exact ⟨_, rfl⟩

theorem resolveCredential_ok_shape {dom : String} {identifier : CredentialIdentifier}
    {key : String} {opts : ResolveCredentialOptions} {outcome : UpstreamOutcome}
    {r : CredentialResolutionResult}
    (h : resolveCredential dom identifier key opts outcome = .ok r) :
    (∃ record, outcome = .settles record ∧ r.value = decodeTextRecord record ∧
        r.success = (decodeTextRecord record).isSome ∧ r.error = none) ∨
    (r.value = none ∧ r.success = false ∧ r.error = none) ∨
    (∃ m, r.value = none ∧ r.success = false ∧ r.error = some m) := by
  unfold resolveCredential at h
  cases htry : resolveCredentialTry dom identifier key opts.timeout outcome with
  | ok r0 =>
      rw [htry] at h
      dsimp only at h
      have hr : r0 = r := Except.ok.inj h
      subst hr
      unfold resolveCredentialTry at htry
      cases hv : validateCredentialRequest identifier key with
      | error e => rw [hv] at htry; simp [Bind.bind, Except.bind] at htry
      | ok u =>
          rw [hv] at htry
          simp only [Bind.bind, Except.bind] at htry
          cases hc : constructENSName identifier dom with
          | error e => rw [hc] at htry; exact Except.noConfusion htry
          | ok n =>
              rw [hc] at htry
              cases outcome with
              | settles record =>
                  simp only [awaitRace, resolveCredentialInternal] at htry
                  left
                  refine ⟨record, rfl, ?_⟩
                  have := Except.ok.inj htry
                  rw [← this]
                  exact ⟨rfl, rfl, rfl⟩
              | rejects msg =>
                  simp only [awaitRace, resolveCredentialInternal] at htry
                  by_cases hnf : isNotFoundMessage msg = true
                  · rw [if_pos hnf] at htry
                    right; left
                    have := Except.ok.inj htry
                    rw [← this]
                    exact ⟨rfl, rfl, rfl⟩
                  · rw [if_neg hnf] at htry
                    exact Except.noConfusion htry
              | hangs =>
                  simp only [awaitRace] at htry
                  exact Except.noConfusion htry
  | error e =>
      rw [htry] at h
      dsimp only at h
      cases hc : constructENSName identifier dom with
      | error e2 => rw [hc] at h; exact Except.noConfusion h
      | ok n =>
          rw [hc] at h
          cases hthrow : opts.throwOnError with
          | true => rw [hthrow] at h; simp only [if_true] at h; exact Except.noConfusion h
          | false =>
              rw [hthrow] at h
              simp only [Bool.false_eq_true, if_false] at h
              right; right
              refine ⟨e.message, ?_⟩
              have := Except.ok.inj h
              rw [← this]
              exact ⟨rfl, rfl, rfl⟩

theorem timeoutMessage_includes_timed_out (t : Nat) :
    strIncludes (timeoutMessage t) "timed out" = true := by
  unfold strIncludes timeoutMessage
  rw [String.data_append, String.data_append]
  have hsplit : ("Credential resolution timed out after " : String).data
      = ("Credential resolution " : String).data ++ ("timed out" : String).data
          ++ (" after " : String).data := by rfl
  rw [hsplit]
  simp only [List.append_assoc]
  exact hasSubstring_append_left _
    (hasSubstring_of_startsWith (isPrefixOfChars_append _ _))

/-! Claims.

Each of the following theorems settles one claim of the specification
against the embedding above. -/

/-- C1: the spec claims that every request failing `validateCredentialRequest`
is, with `throwOnError = false`, returned inline as a failed result without
throwing and without a network call.  That holds for an invalid credential
key (second conjunct: the result is independent of the upstream outcome and
carries the validation message).  But for an invalid identifier the `catch`
block itself re-invokes `constructENSName`, which throws again, so the
validation error escapes `resolveCredential` despite `throwOnError = false`
(first conjunct) — the code contradicts the documented inline-error default. -/
theorem resolveCredential_validation_failure_paths :
    (∀ outcome, resolveCredential "ecs.eth" (.name "bad name")
        "eth.ecs.ethstars.stars" {} outcome
      = .error (.invalidIdentifier
          "Invalid name format: bad name. Names can only contain letters, numbers, dots, and hyphens")) ∧
    (∀ outcome, resolveCredential "ecs.eth" (.name "vitalik.eth")
        "bad.key.x.y" {} outcome
      = .ok { value := none, ensName := "vitalik.eth.name.ecs.eth",
              credentialKey := "bad.key.x.y", success := false,
              error := some
                "Invalid credential key format: bad.key.x.y. Must start with \x27eth.ecs\x27" }) ∧
    (∀ outcome, resolveCredential "ecs.eth" (.name "vitalik.eth")
        "bad.key.x.y" { throwOnError := true } outcome
      = .error (.invalidCredentialKey
          "Invalid credential key format: bad.key.x.y. Must start with \x27eth.ecs\x27")) :=
  ⟨fun _ => rfl, fun _ => rfl, fun _ => rfl⟩

/-- C2: the spec claims a batch with one invalid identifier still yields N
independent results.  In fact the invalid identifier makes the inner
`resolveCredential` reject (see C1), and `Promise.all` then rejects the
whole batch: for every choice of upstream outcomes, a two-request batch
whose second request has an invalid name returns a single error instead of
two results. -/
theorem resolveCredentialsBatch_aborts_on_invalid_identifier :
    ∀ outcomes : Nat → UpstreamOutcome,
      resolveCredentialsBatch "ecs.eth"
        [⟨.name "vitalik.eth", "eth.ecs.ethstars.stars"⟩,
         ⟨.name "bad name", "eth.ecs.ethstars.stars"⟩] {} outcomes
      = .error (.invalidIdentifier
          "Invalid name format: bad name. Names can only contain letters, numbers, dots, and hyphens") := by
  intro outcomes
  obtain ⟨r, hr⟩ := @resolveCredential_no_throw "ecs.eth" (.name "vitalik.eth")
    "eth.ecs.ethstars.stars" {} (outcomes 0) (by decide) rfl
  unfold resolveCredentialsBatch resolveBatchGo
  rw [hr]
  rfl

/-- C3: the spec claims a cleaned `0x`-prefixed value with malformed hex
(e.g. `"0xabc"`) is returned unchanged.  In fact `Buffer.from(s, 'hex')`
never throws — it truncates at the first invalid pair — so the `catch`
fallback to the literal value is dead code: `"0xabc"` decodes to the single
byte `0xAB`, whose UTF-8 decoding is the replacement character U+FFFD, and
that one-character string (not `"0xabc"`) is returned. -/
theorem decodeTextRecord_malformed_hex_not_literal :
    decodeTextRecord (some (.str "0xabc")) = some ⟨[utf8ReplacementChar]⟩ ∧
    decodeTextRecord (some (.str "0xabc")) ≠ some "0xabc" := by decide

/-- C4 (counterexample): a 40-hex-character address written with an
uppercase `0X` prefix is rejected with `InvalidIdentifier`, although the
claim places the whole-input-uppercase variant in the accepted class —
`startsWith('0x')` is case-sensitive, so the prefix is not stripped and the
42-character remainder fails the 40-character test. -/
theorem normalizeAddress_uppercase_prefix_rejected :
    normalizeAddress "0XD8DA6BF26964AF9D7EED9E03E53415D37AA96045"
      = .error (.invalidIdentifier
          "Invalid Ethereum address format: 0XD8DA6BF26964AF9D7EED9E03E53415D37AA96045") := by
  decide

/-- C4 (amended): for every input that is exactly 40 hexadecimal characters
in any letter case, optionally preceded by the exact lowercase prefix `0x`,
`normalizeAddress` returns the prefix-free 40-character lowercase image
(so all case variants of the same digits give the same value); every other
input — including an uppercase `0X` prefix — throws `InvalidIdentifier`. -/
theorem normalizeAddress_case_spec (s : String) :
    (∀ l : List Char, (s.data = l ∨ s.data = '0' :: 'x' :: l) →
        l.length = 40 → l.all isHexDigitJs = true →
        normalizeAddress s = .ok ⟨l.map jsToLowerChar⟩ ∧
        (l.map jsToLowerChar).length = 40 ∧
        (l.map jsToLowerChar).all isLowerHexChar = true) ∧
    (¬ validAddressShape s →
        ∃ m, normalizeAddress s = .error (.invalidIdentifier m)) := by
  constructor
  · intro l hl h40 hhex
    refine ⟨?_, by simpa using h40, ?_⟩
    · rcases hl with hl | hl
      · have hst : startsWith0x s.data = false := by
          rw [hl]; exact startsWith0x_of_all_hex hhex
        subst hl
        simp only [normalizeAddress, hst, Bool.false_eq_true, if_false, h40, hhex,
          Bool.and_self, if_true]
        simp
      · have hst2 : startsWith0x ('0' :: 'x' :: l) = true := rfl
        simp only [normalizeAddress, hl, hst2, if_true, List.drop_succ_cons,
          List.drop_zero, h40, hhex, Bool.and_self]
        simp
    · rw [List.all_eq_true]
      intro c hc
      rcases List.mem_map.mp hc with ⟨a, ha, rfl⟩
      exact jsToLowerChar_hex (List.all_eq_true.mp hhex a ha)
  · intro hnv
    cases hst : startsWith0x s.data with
    | false =>
        cases hcond : (decide (s.data.length = 40) && s.data.all isHexDigitJs) with
        | true =>
            exfalso
            rw [Bool.and_eq_true, decide_eq_true_eq] at hcond
            exact hnv ⟨s.data, Or.inl rfl, hcond.1, hcond.2⟩
        | false =>
            refine ⟨"Invalid Ethereum address format: " ++ s, ?_⟩
            simp only [normalizeAddress, hst, Bool.false_eq_true, if_false, hcond]
    | true =>
        rcases startsWith0x_eq_true hst with ⟨t, ht⟩
        cases hcond : (decide (t.length = 40) && t.all isHexDigitJs) with
        | true =>
            exfalso
            rw [Bool.and_eq_true, decide_eq_true_eq] at hcond
            exact hnv ⟨t, Or.inr ht, hcond.1, hcond.2⟩
        | false =>
            have hst2 : startsWith0x ('0' :: 'x' :: t) = true := rfl
            refine ⟨"Invalid Ethereum address format: " ++ s, ?_⟩
            simp only [normalizeAddress, ht, hst2, if_true, List.drop_succ_cons,
              List.drop_zero, hcond]
            simp

/-- Witness for C4 (amended): both halves instantiated — the mixed-case
prefixed address of the spec example normalizes to its lowercase form, and
the short string `"zz"`, which has no valid shape, is rejected. -/
theorem normalizeAddress_case_spec_witness :
    normalizeAddress "0xD8DA6BF26964AF9D7EED9E03E53415D37AA96045"
      = .ok "d8da6bf26964af9d7eed9e03e53415d37aa96045" ∧
    (∃ m, normalizeAddress "zz" = .error (.invalidIdentifier m)) := by
  constructor
  · have h := (normalizeAddress_case_spec "0xD8DA6BF26964AF9D7EED9E03E53415D37AA96045").1
      ("D8DA6BF26964AF9D7EED9E03E53415D37AA96045".data)
      (Or.inr (by decide)) (by decide) (by decide)
    exact h.1.trans (by decide)
  · refine (normalizeAddress_case_spec "zz").2 ?_
    rintro ⟨l, hl | hl, h40, hhex⟩
    · rw [show ("zz" : String).data = ['z', 'z'] from rfl] at hl
      subst hl
      simp at h40
    · rw [show ("zz" : String).data = ['z', 'z'] from rfl] at hl
      simp at hl

/-- C5: `constructENSName` is a pure function, so it is deterministic and
idempotent (first conjunct, which holds definitionally in the embedding),
and it maps the two spec examples to exactly the claimed lookup names. -/
theorem constructENSName_pure_and_concrete :
    (∀ (identifier : CredentialIdentifier) (dom : String),
        constructENSName identifier dom = constructENSName identifier dom) ∧
    constructENSName (.name "vitalik.eth") "ecs.eth"
      = .ok "vitalik.eth.name.ecs.eth" ∧
    constructENSName
        (.address "d8da6bf26964af9d7eed9e03e53415d37aa96045" (some "3c")) "ecs.eth"
      = .ok "d8da6bf26964af9d7eed9e03e53415d37aa96045.3c.addr.ecs.eth" :=
  ⟨fun _ _ => rfl, by decide, by decide⟩

/-- C6: when the request validates and the upstream read rejects with one of
the known "not found" messages, `resolveCredential` fulfills (does not
throw) with `value = null`, `success = false` and no `error` field — the
rejection is downgraded to `null` inside `_resolveCredentialInternal`
before the result envelope is built. -/
theorem resolveCredential_not_found_downgraded (dom : String)
    (identifier : CredentialIdentifier) (key msg : String)
    (opts : ResolveCredentialOptions)
    (hval : validateCredentialRequest identifier key = .ok ())
    (hnf : isNotFoundMessage msg = true)
    (_hthrow : opts.throwOnError = false) :
    ∃ n, resolveCredential dom identifier key opts (.rejects msg) =
      .ok { value := none, ensName := n, credentialKey := key,
            success := false, error := none } := by
  obtain ⟨n, hn⟩ := constructENSName_ok_of_validate dom hval
  refine ⟨n, ?_⟩
  unfold resolveCredential
  have htry : resolveCredentialTry dom identifier key opts.timeout (.rejects msg)
      = .ok { value := none, ensName := n, credentialKey := key,
              success := false, error := none } := by
    unfold resolveCredentialTry
    rw [hval]
    simp only [Bind.bind, Except.bind]
    rw [hn]
    simp only [awaitRace, resolveCredentialInternal, if_pos hnf]
    rfl
  rw [htry]

/-- Witness for C6: a valid request whose upstream read rejects with
`"resolver not found"` yields the empty non-error result. -/
theorem resolveCredential_not_found_downgraded_witness :
    ∃ n, resolveCredential "ecs.eth" (.name "vitalik.eth")
        "eth.ecs.ethstars.stars" {} (.rejects "resolver not found") =
      .ok { value := none, ensName := n, credentialKey := "eth.ecs.ethstars.stars",
            success := false, error := none } :=
  resolveCredential_not_found_downgraded "ecs.eth" (.name "vitalik.eth")
    "eth.ecs.ethstars.stars" "resolver not found" {} (by decide) (by decide) rfl

/-- C7: every result that `resolveCredential` fulfills with satisfies the
envelope invariant — `success` is true iff `value` is non-null and no error
occurred (no `error` field), and whenever `error` is present `success` is
false and `value` is null. -/
theorem resolveCredential_success_envelope (dom : String)
    (identifier : CredentialIdentifier) (key : String)
    (opts : ResolveCredentialOptions) (outcome : UpstreamOutcome)
    (r : CredentialResolutionResult)
    (h : resolveCredential dom identifier key opts outcome = .ok r) :
    (r.success = true ↔ (r.value ≠ none ∧ r.error = none)) ∧
    (r.error ≠ none → r.success = false ∧ r.value = none) := by
  rcases resolveCredential_ok_shape h with
    ⟨record, _, hv, hs, he⟩ | ⟨hv, hs, he⟩ | ⟨m, hv, hs, he⟩
  · rw [hv, hs, he]
    constructor
    · rw [Option.isSome_iff_ne_none]
      exact ⟨fun hne => ⟨hne, rfl⟩, fun hp => hp.1⟩
    · intro hcontra; exact absurd rfl hcontra
  · rw [hv, hs, he]
    constructor
    · constructor
      · intro hfalse; exact absurd hfalse (by decide)
      · rintro ⟨hne, -⟩; exact absurd rfl hne
    · intro hcontra; exact absurd rfl hcontra
  · rw [hv, hs, he]
    constructor
    · constructor
      · intro hfalse; exact absurd hfalse (by decide)
      · rintro ⟨hne, habs⟩; exact Option.noConfusion habs
    · intro _; exact ⟨rfl, rfl⟩

/-- Witness for C7: the envelope invariant instantiated on a successful
concrete resolution of the record `"12728"`. -/
theorem resolveCredential_success_envelope_witness :
    (({ value := some "12728", ensName := "vitalik.eth.name.ecs.eth",
        credentialKey := "eth.ecs.ethstars.stars", success := true,
        error := none } : CredentialResolutionResult).success = true ↔
      (({ value := some "12728", ensName := "vitalik.eth.name.ecs.eth",
          credentialKey := "eth.ecs.ethstars.stars", success := true,
          error := none } : CredentialResolutionResult).value ≠ none ∧
        ({ value := some "12728", ensName := "vitalik.eth.name.ecs.eth",
           credentialKey := "eth.ecs.ethstars.stars", success := true,
           error := none } : CredentialResolutionResult).error = none)) ∧
    (({ value := some "12728", ensName := "vitalik.eth.name.ecs.eth",
        credentialKey := "eth.ecs.ethstars.stars", success := true,
        error := none } : CredentialResolutionResult).error ≠ none →
      ({ value := some "12728", ensName := "vitalik.eth.name.ecs.eth",
         credentialKey := "eth.ecs.ethstars.stars", success := true,
         error := none } : CredentialResolutionResult).success = false ∧
      ({ value := some "12728", ensName := "vitalik.eth.name.ecs.eth",
         credentialKey := "eth.ecs.ethstars.stars", success := true,
         error := none } : CredentialResolutionResult).value = none) :=
  resolveCredential_success_envelope "ecs.eth" (.name "vitalik.eth")
    "eth.ecs.ethstars.stars" {} (.settles (some (.str "12728"))) _ (by decide)

/-- C8 (counterexample): for the empty string — a printable-ASCII string
with no leading or trailing whitespace — the encoded input is just `"0x"`,
and the decoder returns `null` rather than the original empty string
(`decoded || null` maps the empty decode to `null`). -/
theorem decodeTextRecord_roundtrip_empty_counterexample :
    decodeTextRecord (some (.str ⟨'0' :: 'x' :: hexEncodeBytes (utf8Encode [])⟩))
      = none ∧
    decodeTextRecord (some (.str "0x")) ≠ some "" := by decide

/-- C8 (amended): for every nonempty printable-ASCII string with no leading
or trailing whitespace, feeding the decoder `0x` followed by the lowercase
hex encoding of its UTF-8 bytes returns exactly the original string. -/
theorem decodeTextRecord_hex_roundtrip (l : List Char) (hne : l ≠ [])
    (hprint : ∀ c ∈ l, 32 ≤ c.toNat ∧ c.toNat ≤ 126)
    (hhead : ∀ c, l.head? = some c → isJsWhitespace c = false)
    (hlast : ∀ c, l.getLast? = some c → isJsWhitespace c = false) :
    decodeTextRecord (some (.str ⟨'0' :: 'x' :: hexEncodeBytes (utf8Encode l)⟩))
      = some ⟨l⟩ := by
  have hascii : ∀ c ∈ l, c.toNat ≤ 127 := fun c hc => by have := (hprint c hc).2; omega
  have henc : utf8Encode l = l.map Char.toNat := utf8Encode_ascii hascii
  have hbytes : ∀ b ∈ utf8Encode l, b < 256 := by
    rw [henc]
    intro b hb
    rcases List.mem_map.mp hb with ⟨c, hc, rfl⟩
    have := hascii c hc
    omega
  have hxchars : ∀ c ∈ hexEncodeBytes (utf8Encode l), 48 ≤ c.toNat ∧ c.toNat ≤ 102 :=
    hexEncodeBytes_chars hbytes
  have hxne : hexEncodeBytes (utf8Encode l) ≠ [] := by
    cases hl : l with
    | nil => exact absurd hl hne
    | cons c t =>
        rw [hl] at henc
        rw [henc]
        exact hexEncodeBytes_ne_nil
  have hfull : ∀ c ∈ '0' :: 'x' :: hexEncodeBytes (utf8Encode l),
      33 ≤ c.toNat ∧ c.toNat ≤ 126 := by
    intro c hc
    simp only [List.mem_cons] at hc
    rcases hc with hc | hc | hc
    · subst hc; constructor <;> decide
    · subst hc; constructor <;> decide
    · have := hxchars c hc; omega
  unfold decodeTextRecord
  dsimp only [coerceRecord]
  rw [if_neg (by
    simp only [recordIsFalsy, decide_eq_true_eq]
    intro hteq
    have : ('0' :: 'x' :: hexEncodeBytes (utf8Encode l)) = ([] : List Char) :=
      congrArg String.data hteq
    exact List.noConfusion this)]
  have hfilter : List.filter (fun c => !isStrippedControl c)
      ('0' :: 'x' :: hexEncodeBytes (utf8Encode l))
      = '0' :: 'x' :: hexEncodeBytes (utf8Encode l) := by
    rw [List.filter_eq_self]
    intro a ha
    have := hfull a (by simpa using ha)
    simp only [Bool.not_eq_eq_eq_not, Bool.not_true]
    rw [not_strippedControl_of_printable (by omega) (by omega)]
  rw [hfilter]
  have htrim1 : jsTrimList ('0' :: 'x' :: hexEncodeBytes (utf8Encode l))
      = '0' :: 'x' :: hexEncodeBytes (utf8Encode l) := by
    apply jsTrimList_eq_self
    · intro c hc
      have : '0' = c := by simpa using hc
      subst this
      decide
    · intro c hc
      have hc2 : ('0' :: 'x' :: hexEncodeBytes (utf8Encode l)).getLast?
          = (hexEncodeBytes (utf8Encode l)).getLast? := by
        rw [show ('0' :: 'x' :: hexEncodeBytes (utf8Encode l))
            = ['0', 'x'] ++ hexEncodeBytes (utf8Encode l) from rfl]
        exact List.getLast?_append_of_ne_nil _ hxne
      rw [hc2] at hc
      have hmem : c ∈ hexEncodeBytes (utf8Encode l) := List.mem_of_mem_getLast? hc
      have := hxchars c hmem
      exact not_jsWhitespace_of_printable (by omega) (by omega) (by omega)
  rw [htrim1]
  rw [if_neg (by intro h; exact List.noConfusion h)]
  rw [if_pos (show startsWith0x ('0' :: 'x' :: hexEncodeBytes (utf8Encode l)) = true from rfl)]
  rw [show List.drop 2 ('0' :: 'x' :: hexEncodeBytes (utf8Encode l))
      = hexEncodeBytes (utf8Encode l) from rfl]
  rw [hexPairsDecode_hexEncodeBytes hbytes, henc, utf8_roundtrip_ascii hascii]
  rw [jsTrimList_eq_self hhead hlast]
  rw [if_neg hne]

/-- Witness for C8 (amended): the round-trip at `"12728"` — whose encoded
form is literally `"0x3132373238"` — returns `"12728"`. -/
theorem decodeTextRecord_hex_roundtrip_witness :
    decodeTextRecord (some (.str ⟨'0' :: 'x' :: hexEncodeBytes (utf8Encode "12728".data)⟩))
      = some ⟨"12728".data⟩ ∧
    (⟨'0' :: 'x' :: hexEncodeBytes (utf8Encode "12728".data)⟩ : String)
      = "0x3132373238" :=
  ⟨decodeTextRecord_hex_roundtrip "12728".data (by decide) (by decide)
      (by decide) (by decide),
    by decide⟩

/-- C9: when the request validates and the upstream read fails to settle
before the timeout race is lost, `resolveCredential` with
`throwOnError = false` fulfills with a failed result whose `error` is the
`ResolutionTimeoutError` message, and that message contains `"timed out"`. -/
theorem resolveCredential_timeout_reported (dom : String)
    (identifier : CredentialIdentifier) (key : String)
    (opts : ResolveCredentialOptions)
    (hval : validateCredentialRequest identifier key = .ok ())
    (hthrow : opts.throwOnError = false) :
    (∃ n, resolveCredential dom identifier key opts .hangs =
       .ok { value := none, ensName := n, credentialKey := key, success := false,
             error := some (timeoutMessage opts.timeout) }) ∧
    strIncludes (timeoutMessage opts.timeout) "timed out" = true := by
  refine ⟨?_, timeoutMessage_includes_timed_out _⟩
  obtain ⟨n, hn⟩ := constructENSName_ok_of_validate dom hval
  refine ⟨n, ?_⟩
  unfold resolveCredential
  have htry : resolveCredentialTry dom identifier key opts.timeout .hangs
      = .error (.resolutionTimeout (timeoutMessage opts.timeout)) := by
    unfold resolveCredentialTry
    rw [hval]
    simp only [Bind.bind, Except.bind]
    rw [hn]
    simp only [awaitRace]
  rw [htry, hn, hthrow]
  rfl

/-- Witness for C9: with the default options (timeout 10000 ms) an upstream
read that never settles produces the message
`"Credential resolution timed out after 10000ms"`. -/
theorem resolveCredential_timeout_reported_witness :
    (∃ n, resolveCredential "ecs.eth" (.name "vitalik.eth")
        "eth.ecs.ethstars.stars" {} .hangs =
      .ok { value := none, ensName := n, credentialKey := "eth.ecs.ethstars.stars",
            success := false, error := some (timeoutMessage 10000) }) ∧
    strIncludes (timeoutMessage 10000) "timed out" = true :=
  resolveCredential_timeout_reported "ecs.eth" (.name "vitalik.eth")
    "eth.ecs.ethstars.stars" {} (by decide) rfl

/-- C10: whenever `resolveCredential` fulfills with `success = true`, the
value is a non-empty string: the decoder never produces `some ""` (empty,
all-control and whitespace-only raw values, and hex payloads that decode to
whitespace only, yield `null`), and the success flag is exactly
non-nullness of the decoded value. -/
theorem resolveCredential_success_value_nonempty (dom : String)
    (identifier : CredentialIdentifier) (key : String)
    (opts : ResolveCredentialOptions) (outcome : UpstreamOutcome)
    (r : CredentialResolutionResult)
    (h : resolveCredential dom identifier key opts outcome = .ok r)
    (hs : r.success = true) :
    ∃ v, r.value = some v ∧ v ≠ "" := by
  rcases resolveCredential_ok_shape h with
    ⟨record, _, hv, hsucc, _⟩ | ⟨hv, hsucc, _⟩ | ⟨m, hv, hsucc, _⟩
  · rw [hsucc] at hs
    rcases Option.isSome_iff_exists.mp hs with ⟨v, hrec⟩
    refine ⟨v, by rw [hv, hrec], ?_⟩
    intro hveq
    subst hveq
    exact decodeTextRecord_ne_some_empty record hrec
  · rw [hsucc] at hs
    exact absurd hs (by decide)
  · rw [hsucc] at hs
    exact absurd hs (by decide)

/-- Witness for C10: a successful concrete resolution of the record
`"12728"` carries the non-empty value `"12728"`. -/
theorem resolveCredential_success_value_nonempty_witness :
    ∃ v, ({ value := some "12728", ensName := "vitalik.eth.name.ecs.eth",
            credentialKey := "eth.ecs.ethstars.stars", success := true,
            error := none } : CredentialResolutionResult).value = some v ∧
      v ≠ "" :=
  resolveCredential_success_value_nonempty "ecs.eth" (.name "vitalik.eth")
    "eth.ecs.ethstars.stars" {} (.settles (some (.str "12728"))) _
    (by decide) rfl
